import Mathlib

/-!
# FretForge music-theory core: a shallow embedding

Embedding of the music-theory engine of the fretforge repository:
the `Note` value object (src/lib/Note.ts), the `Fretboard` grid and
scale/chord resolver (src/lib/Fretboard.ts, both variants present in the
sources), the tuning parser (`stringTuningToNotes`), and the theory
analysis module (src/lib/theory.ts).

Conventions of the embedding:
* JavaScript numbers that hold integers become `Int` (octaves, midi numbers,
  semitone steps) or `Nat` (counts, fret numbers).
* The JavaScript `%` operator is truncating remainder, `Int.tmod`;
  `Math.floor(x / 12)` on integers is flooring division, `Int.fdiv`.
* A `Record` lookup that can miss returns an `Option`; destructuring
  `undefined` (a TypeError at runtime) surfaces as `none` / an error value.
* Scores in the key-detection module are exact rationals (`ℚ`); the
  JavaScript source computes them in floating point.
-/

namespace FretForge

/-! ## constants.ts -/

/-- The chromatic offsets of the seven natural pitch classes
(`PitchClasses` in constants.ts): C=0, D=2, E=4, F=5, G=7, A=9, B=11. -/
def pitchClassValues : List Int := [0, 2, 4, 5, 7, 9, 11]

/-- The three accidentals (`Accidentals`): NATURAL=0, SHARP=1, FLAT=-1. -/
def accidentalValues : List Int := [0, 1, -1]

/-- `PitchClasses[name]` as a lookup: only the seven bare natural letters
are keys; any other string misses. -/
def pitchClassLookup (s : String) : Option Int :=
  if s = "C" then some 0
  else if s = "D" then some 2
  else if s = "E" then some 4
  else if s = "F" then some 5
  else if s = "G" then some 7
  else if s = "A" then some 9
  else if s = "B" then some 11
  else none

/-! ## Note.ts -/

/-- A musical note: pitch class, accidental, octave (the `Note` class). The
TypeScript types restrict `pitchClass` to the seven values of
`pitchClassValues` and `accidental` to `accidentalValues`; `ValidNote`
records that restriction. -/
structure Note where
  pitchClass : Int
  accidental : Int
  octave : Int
deriving DecidableEq, Repr

/-- A note whose fields satisfy the TypeScript `PitchClass`/`Accidental`
union types. -/
def ValidNote (n : Note) : Prop :=
  n.pitchClass ∈ pitchClassValues ∧ n.accidental ∈ accidentalValues

instance (n : Note) : Decidable (ValidNote n) := by
  unfold ValidNote; infer_instance

/-- `get index()`: `(this.pitchClass + this.accidental + 12) % 12`. -/
def Note.index (n : Note) : Int :=
  (n.pitchClass + n.accidental + 12).tmod 12

/-- `SHARP_NAMES` of `Note.getNoteName`. -/
def SHARP_NAMES : List String :=
  ["C", "C♯", "D", "D♯", "E", "F", "F♯", "G", "G♯", "A", "A♯", "B"]

/-- `FLAT_NAMES` of `Note.getNoteName`. -/
def FLAT_NAMES : List String :=
  ["C", "D♭", "D", "E♭", "E", "F", "G♭", "G", "A♭", "A", "B♭", "B"]

/-- `Note.getNoteName(index, preferFlat)`: indexes one of the two fixed
12-entry tables. Out-of-range indices (never produced by the engine) give
the empty string here, where JavaScript would give `undefined`. -/
def Note.getNoteName (index : Int) (preferFlat : Bool) : String :=
  (((if preferFlat then FLAT_NAMES else SHARP_NAMES).get? index.toNat).getD "")

/-- `SHARP_COMPONENTS` of `Note.fromIndex`: chromatic index to
(pitchClass, accidental), sharp spelling. A key outside 0..11 misses. -/
def sharpComponents (i : Int) : Option (Int × Int) :=
  if i = 0 then some (0, 0)
  else if i = 1 then some (0, 1)
  else if i = 2 then some (2, 0)
  else if i = 3 then some (2, 1)
  else if i = 4 then some (4, 0)
  else if i = 5 then some (5, 0)
  else if i = 6 then some (5, 1)
  else if i = 7 then some (7, 0)
  else if i = 8 then some (7, 1)
  else if i = 9 then some (9, 0)
  else if i = 10 then some (9, 1)
  else if i = 11 then some (11, 0)
  else none

/-- `FLAT_COMPONENTS` of `Note.fromIndex`. -/
def flatComponents (i : Int) : Option (Int × Int) :=
  if i = 0 then some (0, 0)
  else if i = 1 then some (2, -1)
  else if i = 2 then some (2, 0)
  else if i = 3 then some (4, -1)
  else if i = 4 then some (4, 0)
  else if i = 5 then some (5, 0)
  else if i = 6 then some (7, -1)
  else if i = 7 then some (7, 0)
  else if i = 8 then some (9, -1)
  else if i = 9 then some (9, 0)
  else if i = 10 then some (11, -1)
  else if i = 11 then some (11, 0)
  else none

/-- `Note.fromIndex(index, octave, preferFlat)`. In TypeScript an index
outside the component table makes `const [pc, acc] = undefined` throw a
TypeError; here that is `none`. -/
def Note.fromIndex (index octave : Int) (preferFlat : Bool) : Option Note :=
  match (if preferFlat then flatComponents index else sharpComponents index) with
  | some (pc, acc) => some ⟨pc, acc, octave⟩
  | none => none

/-- `getMidiNumber()`: `this.octave * 12 + this.index`. -/
def Note.getMidiNumber (n : Note) : Int :=
  n.octave * 12 + n.index

/-- `getHalfStepNote(steps)`: `newMidi = midi + steps`;
`newIndex = (newMidi + 1200) % 12`; `newOctave = Math.floor(newMidi / 12)`;
built through `Note.fromIndex` with the sharp table (default
`preferFlat = false`). -/
def Note.getHalfStepNote (n : Note) (steps : Int) : Option Note :=
  let newMidi := n.getMidiNumber + steps
  let newIndex := (newMidi + 1200).tmod 12
  let newOctave := newMidi.fdiv 12
  Note.fromIndex newIndex newOctave false

/-- `toString(preferFlat)`: note name followed by the octave. -/
def Note.toDisplayString (n : Note) (preferFlat : Bool) : String :=
  Note.getNoteName n.index preferFlat ++ toString n.octave

/-- `equals(other)` of the primary Note variant: by chromatic index only. -/
def Note.equals (n other : Note) : Bool :=
  n.index == other.index

/-! ### Arithmetic facts about the Note model -/

/-- For a note satisfying the TypeScript field types, the chromatic index
lies in [0, 11]. -/
theorem valid_index_bounds (n : Note) (h : ValidNote n) :
    0 ≤ n.index ∧ n.index < 12 := by
  obtain ⟨h1, h2⟩ := h
  simp [pitchClassValues] at h1
  simp [accidentalValues] at h2
  unfold Note.index
  rw [Int.tmod_eq_emod (by omega) (by omega)]
  exact ⟨Int.emod_nonneg _ (by omega), Int.emod_lt_of_pos _ (by omega)⟩

/-- The sharp component table succeeds on 0..11 and yields a pitch
class/accidental pair summing to the index, with fields of the declared
union types. -/
theorem sharpComponents_spec (i : Int) (h0 : 0 ≤ i) (h1 : i < 12) :
    ∃ pc acc, sharpComponents i = some (pc, acc) ∧ pc + acc = i ∧
      pc ∈ pitchClassValues ∧ acc ∈ accidentalValues := by
  interval_cases i
  · exact ⟨0, 0, rfl, by decide, by decide, by decide⟩
  · exact ⟨0, 1, rfl, by decide, by decide, by decide⟩
  · exact ⟨2, 0, rfl, by decide, by decide, by decide⟩
  · exact ⟨2, 1, rfl, by decide, by decide, by decide⟩
  · exact ⟨4, 0, rfl, by decide, by decide, by decide⟩
  · exact ⟨5, 0, rfl, by decide, by decide, by decide⟩
  · exact ⟨5, 1, rfl, by decide, by decide, by decide⟩
  · exact ⟨7, 0, rfl, by decide, by decide, by decide⟩
  · exact ⟨7, 1, rfl, by decide, by decide, by decide⟩
  · exact ⟨9, 0, rfl, by decide, by decide, by decide⟩
  · exact ⟨9, 1, rfl, by decide, by decide, by decide⟩
  · exact ⟨11, 0, rfl, by decide, by decide, by decide⟩

/-- When the target midi number stays at or above -1200 (so the
`+1200`-offset remainder is non-negative), `getHalfStepNote` succeeds, and
the note it builds carries exactly the intended midi number. -/
theorem getHalfStepNote_spec (n : Note) (steps : Int)
    (h : 0 ≤ n.getMidiNumber + steps + 1200) :
    ∃ m, n.getHalfStepNote steps = some m ∧ ValidNote m ∧
      m.index = (n.getMidiNumber + steps) % 12 ∧
      m.octave = (n.getMidiNumber + steps) / 12 ∧
      m.getMidiNumber = n.getMidiNumber + steps := by
  set d := n.getMidiNumber + steps with hd
  have htm : (d + 1200).tmod 12 = d % 12 := by
    rw [Int.tmod_eq_emod h (by omega)]
    omega
  have hb : 0 ≤ d % 12 ∧ d % 12 < 12 :=
    ⟨Int.emod_nonneg _ (by omega), Int.emod_lt_of_pos _ (by omega)⟩
  obtain ⟨pc, acc, hcomp, hsum, hpc, hacc⟩ :=
    sharpComponents_spec (d % 12) hb.1 hb.2
  refine ⟨⟨pc, acc, d.fdiv 12⟩, ?_, ⟨hpc, hacc⟩, ?_, ?_, ?_⟩
  · unfold Note.getHalfStepNote Note.fromIndex
    simp only [← hd, htm, hcomp]
    rfl
  · show (pc + acc + 12).tmod 12 = d % 12
    have hpcb : 0 ≤ pc + acc := by omega
    rw [Int.tmod_eq_emod (by omega) (by omega)]
    omega
  · show d.fdiv 12 = d / 12
    exact Int.fdiv_eq_ediv _ (by omega)
  · show d.fdiv 12 * 12 + (pc + acc + 12).tmod 12 = d
    rw [Int.fdiv_eq_ediv _ (by omega), Int.tmod_eq_emod (by omega) (by omega)]
    have := Int.ediv_add_emod d 12
    omega

/-- C1 (amended): transposing up by k half steps and back down preserves the
chromatic index for every Note and integer k such that both intermediate
midi numbers stay at or above -1200, the range on which the
`(newMidi + 1200) % 12` offset keeps the component-table key in 0..11. -/
theorem transpose_roundtrip_index (n : Note) (k : Int) (hv : ValidNote n)
    (h1 : -1200 ≤ n.getMidiNumber) (h2 : -1200 ≤ n.getMidiNumber + k) :
    ∃ m, ((n.getHalfStepNote k).bind (fun m1 => m1.getHalfStepNote (-k))) = some m ∧
      m.index = n.index := by
  obtain ⟨m1, hm1, hv1, hidx1, hoct1, hmidi1⟩ := getHalfStepNote_spec n k (by omega)
  obtain ⟨m2, hm2, hv2, hidx2, hoct2, hmidi2⟩ :=
    getHalfStepNote_spec m1 (-k) (by rw [hmidi1]; omega)
  refine ⟨m2, ?_, ?_⟩
  · rw [hm1]
    simpa using hm2
  · rw [hidx2, hmidi1]
    have hb := valid_index_bounds n hv
    have hm : n.getMidiNumber = n.octave * 12 + n.index := rfl
    omega

/-- C1 counterexample: for the ordinary note C0 and k = -1201 the first
transposition's table key is the remainder -1, the lookup misses, and the
round trip produces no note at all (in TypeScript: a TypeError), so the
claimed identity fails as stated for arbitrary integers k. -/
theorem transpose_roundtrip_counterexample :
    ValidNote ⟨0, 0, 0⟩ ∧
      ((Note.mk 0 0 0).getHalfStepNote (-1201)).bind
        (fun m1 => m1.getHalfStepNote (-(-1201))) = none := by
  decide

/-- C1 witness: the round trip at C4 with k = 7. -/
theorem transpose_roundtrip_witness :
    ∃ m, (((Note.mk 0 0 4).getHalfStepNote 7).bind
      (fun m1 => m1.getHalfStepNote (-7))) = some m ∧
      m.index = (Note.mk 0 0 4).index :=
  transpose_roundtrip_index ⟨0, 0, 4⟩ 7 (by decide) (by decide) (by decide)

/-- C6 (amended): transposing by exactly 12 half steps preserves the
chromatic index and increments the octave by one, for every Note whose
octave is at least -101 (below that the component-table key
`(midi + 12 + 1200) % 12` can go negative and the lookup throws). -/
theorem transpose_twelve_octave (n : Note) (hv : ValidNote n)
    (h : -101 ≤ n.octave) :
    ∃ m, n.getHalfStepNote 12 = some m ∧ m.index = n.index ∧
      m.octave = n.octave + 1 := by
  have hb := valid_index_bounds n hv
  have hm : n.getMidiNumber = n.octave * 12 + n.index := rfl
  obtain ⟨m, hsome, hvm, hidx, hoct, hmidi⟩ := getHalfStepNote_spec n 12 (by omega)
  exact ⟨m, hsome, by rw [hidx]; omega, by rw [hoct]; omega⟩

/-- C6 counterexample: C♯ at octave -102 is a Note the class accepts, yet
`getHalfStepNote(12)` computes table key (-1211 + 1200) % 12 = -11, misses
the component table and produces no note, so the claim fails for every
Note. -/
theorem transpose_twelve_counterexample :
    ValidNote ⟨0, 1, -102⟩ ∧ (Note.mk 0 1 (-102)).getHalfStepNote 12 = none := by
  decide

/-- C6 witness: A4 transposed by 12 half steps. -/
theorem transpose_twelve_witness :
    ∃ m, (Note.mk 9 0 4).getHalfStepNote 12 = some m ∧
      m.index = (Note.mk 9 0 4).index ∧ m.octave = (Note.mk 9 0 4).octave + 1 :=
  transpose_twelve_octave ⟨9, 0, 4⟩ (by decide) (by decide)

/-! ## Fretboard.ts: the grid -/

/-- `generateBoard()`: one row per open string, each row the open note
transposed up by 0..frets half steps (`Array.from({length: frets + 1})`).
A TypeError thrown inside `getHalfStepNote` propagates out of `Array.from`
and `map`, aborting the whole construction, hence `mapM`: either every
cell resolves and the full board exists, or there is no board at all. -/
def generateBoard (strings : List Note) (frets : Nat) : Option (List (List Note)) :=
  strings.mapM (fun openNote =>
    (List.range (frets + 1)).mapM (fun fret : Nat => openNote.getHalfStepNote fret))

/-- A list of `Option`s whose entries are all `some` maps to a `some` of
the same length, with entry i the mapped entry i. -/
theorem mapM_option_spec {α β : Type} (f : α → Option β) (l : List α)
    (h : ∀ a ∈ l, (f a).isSome) :
    ∃ ys, l.mapM f = some ys ∧ ys.length = l.length ∧
      ∀ i : Nat, ys[i]? = (l[i]?).bind f := by
  induction l with
  | nil => exact ⟨[], rfl, rfl, fun i => by simp⟩
  | cons a as ih =>
    obtain ⟨b, hb⟩ := Option.isSome_iff_exists.mp (h a (by simp))
    obtain ⟨ys, hys, hlen, hget⟩ := ih (fun x hx => h x (by simp [hx]))
    refine ⟨b :: ys, ?_, ?_, ?_⟩
    · rw [List.mapM_cons, hb, hys]
      rfl
    · simp [hlen]
    · intro i
      cases i with
      | zero => simp [hb]
      | succ j => simp [hget j]

/-- Every transposition of a single open string with midi number at least
-1200 succeeds, and the resulting row has the fret-0..frets cells. -/
theorem generateBoard_row_spec (openNote : Note) (frets : Nat)
    (hm : -1200 ≤ openNote.getMidiNumber) :
    ∃ row, (List.range (frets + 1)).mapM
        (fun fret : Nat => openNote.getHalfStepNote fret) = some row ∧
      row.length = frets + 1 ∧
      ∀ f : Nat, f ≤ frets → row[f]? = openNote.getHalfStepNote f := by
  obtain ⟨row, hrow, hlen, hget⟩ := mapM_option_spec
    (fun fret : Nat => openNote.getHalfStepNote fret) (List.range (frets + 1))
    (fun fret _ => by
      obtain ⟨m, hsome, -⟩ := getHalfStepNote_spec openNote fret (by
        have : (0 : Int) ≤ fret := Int.ofNat_nonneg fret
        omega)
      simp [hsome])
  refine ⟨row, hrow, by simp [hlen], ?_⟩
  intro f hf
  rw [hget f, List.getElem?_range (Nat.lt_succ_of_le hf)]
  rfl

/-- C4 (amended): whenever every open string's midi number is at least
-1200 (so every table key `(midi + fret + 1200) % 12` stays non-negative),
the board exists, has one row per string, each row has frets + 1 cells,
and cell [s][f] is the open-string note of string s transposed up by f
half steps. -/
theorem generateBoard_shape (strings : List Note) (frets : Nat)
    (hm : ∀ o ∈ strings, -1200 ≤ o.getMidiNumber) :
    ∃ board, generateBoard strings frets = some board ∧
      board.length = strings.length ∧
      (∀ row ∈ board, row.length = frets + 1) ∧
      (∀ s f : Nat, f ≤ frets →
        (board[s]?.bind (fun row => row[f]?)) =
          (strings[s]?.bind (fun openNote => openNote.getHalfStepNote f))) := by
  obtain ⟨board, hboard, hblen, hbget⟩ := mapM_option_spec
    (fun openNote : Note =>
      (List.range (frets + 1)).mapM (fun fret : Nat => openNote.getHalfStepNote fret))
    strings
    (fun o ho => by
      obtain ⟨row, hrow, -, -⟩ := generateBoard_row_spec o frets (hm o ho)
      change ((List.range (frets + 1)).mapM
        (fun fret : Nat => o.getHalfStepNote fret)).isSome = true
      rw [hrow]
      rfl)
  refine ⟨board, hboard, hblen, ?_, ?_⟩
  · intro row hrowmem
    obtain ⟨s, hs'⟩ := List.mem_iff_getElem?.mp hrowmem
    rw [hbget s] at hs'
    cases ho : strings[s]? with
    | none => rw [ho] at hs'; simp at hs'
    | some o =>
      rw [ho] at hs'
      obtain ⟨row2, hrow2, hlen2, -⟩ := generateBoard_row_spec o frets
        (hm o (List.getElem?_mem ho))
      simp only [Option.some_bind] at hs'
      rw [hrow2] at hs'
      cases hs'
      exact hlen2
  · intro s f hf
    rw [hbget s]
    cases ho : strings[s]? with
    | none => simp
    | some o =>
      obtain ⟨row, hrow, -, hget⟩ := generateBoard_row_spec o frets
        (hm o (List.getElem?_mem ho))
      simp only [Option.some_bind, hrow]
      exact hget f hf

/-- C4 counterexample: for the single open string C♯ at octave -102 and 12
frets, fret 12 computes the component-table key (-1211 + 1200) % 12 = -11,
the lookup misses, the TypeError aborts `Array.from`, and no board of any
shape is produced. -/
theorem generateBoard_counterexample :
    ValidNote ⟨0, 1, -102⟩ ∧ generateBoard [⟨0, 1, -102⟩] 12 = none := by
  decide

/-- C4 witness: a one-string board (E2, 2 frets). -/
theorem generateBoard_shape_witness :
    ∃ board, generateBoard [Note.mk 4 0 2] 2 = some board ∧
      board.length = ([Note.mk 4 0 2] : List Note).length ∧
      (∀ row ∈ board, row.length = 2 + 1) ∧
      (∀ s f : Nat, f ≤ 2 →
        (board[s]?.bind (fun row => row[f]?)) =
          (([Note.mk 4 0 2] : List Note)[s]?.bind
            (fun openNote => openNote.getHalfStepNote f))) :=
  generateBoard_shape [Note.mk 4 0 2] 2 (by decide)

/-! ## Fretboard.ts: the scale/chord resolver

The sources carry two variants of `Fretboard.getScaleNotes`, identical in
logic but with different pattern tables: the first (the larger table, with
modal/jazz/world scales and nine-note chords) and the second (the
`diatonicMajor`/`diatonicMinor` table with nine chords). Both are embedded. -/

/-- Error outcomes of the resolver: the explicit `Unknown scale or chord
type` throw, and the TypeError a missing component-table key would raise
inside `getHalfStepNote`. -/
inductive ScaleError where
  | unknownPattern
  | transposeFailed
deriving DecidableEq, Repr

/-- The `scaleIntervals` table of the first `getScaleNotes` variant. -/
def scaleIntervalsV1 : List (String × List Int) :=
  [("minor", [0, 2, 3, 5, 7, 8, 10]),
   ("major", [0, 2, 4, 5, 7, 9, 11]),
   ("harmonicMinor", [0, 2, 3, 5, 7, 8, 11]),
   ("melodicMinor", [0, 2, 3, 5, 7, 9, 11]),
   ("pentatonicMinor", [0, 3, 5, 7, 10]),
   ("pentatonicMajor", [0, 2, 4, 7, 9]),
   ("bluesMinor", [0, 3, 5, 6, 7, 10]),
   ("bluesMajor", [0, 2, 3, 4, 7, 9]),
   ("dorian", [0, 2, 3, 5, 7, 9, 10]),
   ("phrygian", [0, 1, 4, 5, 7, 8, 10]),
   ("lydian", [0, 2, 4, 6, 7, 9, 11]),
   ("mixolydian", [0, 2, 4, 5, 7, 9, 10]),
   ("locrian", [0, 1, 3, 5, 6, 8, 10]),
   ("altered", [0, 1, 3, 4, 6, 8, 10]),
   ("lydianDominant", [0, 2, 4, 6, 7, 9, 10]),
   ("wholeTone", [0, 2, 4, 6, 8, 10]),
   ("diminished", [0, 2, 3, 5, 6, 8, 9, 11]),
   ("hirajoshi", [0, 2, 3, 7, 8]),
   ("phrygianDominant", [0, 1, 4, 5, 7, 8, 10]),
   ("hungarianMinor", [0, 2, 3, 6, 7, 8, 11]),
   ("persian", [0, 1, 4, 5, 6, 8, 11]),
   ("octatonic", [0, 2, 3, 5, 6, 8, 9, 11]),
   ("hexatonic", [0, 2, 4, 6, 8, 10]),
   ("chromatic", [0, 1, 2, 3, 4, 5, 6, 7, 8, 9, 10, 11]),
   ("tritone", [0, 6]),
   ("maj", [0, 4, 7]),
   ("min", [0, 3, 7]),
   ("dim", [0, 3, 6]),
   ("aug", [0, 4, 8]),
   ("maj7", [0, 4, 7, 11]),
   ("min7", [0, 3, 7, 10]),
   ("7", [0, 4, 7, 10]),
   ("dim7", [0, 3, 6, 9]),
   ("m7b5", [0, 3, 6, 10]),
   ("maj9", [0, 4, 7, 11, 14]),
   ("min9", [0, 3, 7, 10, 14]),
   ("9", [0, 4, 7, 10, 14]),
   ("maj6", [0, 4, 7, 9]),
   ("min6", [0, 3, 7, 9]),
   ("sus2", [0, 2, 7]),
   ("sus4", [0, 5, 7])]

/-- The `scaleIntervals` table of the second `getScaleNotes` variant. -/
def scaleIntervalsV2 : List (String × List Int) :=
  [("diatonicMinor", [0, 2, 3, 5, 7, 8, 10]),
   ("diatonicMajor", [0, 2, 4, 5, 7, 9, 11]),
   ("pentatonicMinor", [0, 3, 5, 7, 10]),
   ("pentatonicMajor", [0, 2, 4, 7, 9]),
   ("bluesMinor", [0, 3, 5, 6, 7, 10]),
   ("bluesMajor", [0, 2, 3, 4, 7, 9]),
   ("maj", [0, 4, 7]),
   ("min", [0, 3, 7]),
   ("dim", [0, 3, 6]),
   ("aug", [0, 4, 8]),
   ("maj7", [0, 4, 7, 11]),
   ("min7", [0, 3, 7, 10]),
   ("7", [0, 4, 7, 10]),
   ("dim7", [0, 3, 6, 9]),
   ("m7b5", [0, 3, 6, 10])]

/-- Exact, case-sensitive key lookup in a pattern table
(`scaleIntervals[scaleType]`). -/
def lookupIntervals (table : List (String × List Int)) (k : String) :
    Option (List Int) :=
  (table.find? (fun p => p.1 == k)).map (fun p => p.2)

/-- `self.findIndex(n => n.equals(note))`-based deduplication: keep an
element only when its position equals the first position of an
index-equal note. -/
def dedupNotes (l : List Note) : List Note :=
  l.enum.filterMap (fun p =>
    if l.findIdx (fun m => m.equals p.2) == p.1 then some p.2 else none)

/-- `getScaleNotes(rootNote, scaleType)` over a given pattern table:
unknown name throws; otherwise each interval is resolved by
`getHalfStepNote` and the result deduplicated. -/
def getScaleNotesWith (table : List (String × List Int)) (rootNote : Note)
    (scaleType : String) : Except ScaleError (List Note) :=
  match lookupIntervals table scaleType with
  | none => Except.error ScaleError.unknownPattern
  | some intervals =>
    match intervals.mapM (fun interval => rootNote.getHalfStepNote interval) with
    | none => Except.error ScaleError.transposeFailed
    | some scaleNotes => Except.ok (dedupNotes scaleNotes)

/-- The first resolver variant (Fretboard.ts, large table). -/
def getScaleNotesV1 (rootNote : Note) (scaleType : String) :
    Except ScaleError (List Note) :=
  getScaleNotesWith scaleIntervalsV1 rootNote scaleType

/-- The second resolver variant (Fretboard.ts, diatonic table). -/
def getScaleNotesV2 (rootNote : Note) (scaleType : String) :
    Except ScaleError (List Note) :=
  getScaleNotesWith scaleIntervalsV2 rootNote scaleType

/-- The scale-name vocabulary the spec declares as the stable contract. -/
def claimedScaleNames : List String :=
  ["diatonicMajor", "diatonicMinor", "pentatonicMajor", "pentatonicMinor",
   "bluesMajor", "bluesMinor", "major", "minor", "harmonicMinor",
   "melodicMinor", "dorian", "phrygian", "lydian", "mixolydian", "locrian",
   "altered", "lydianDominant", "wholeTone", "diminished", "hirajoshi",
   "phrygianDominant", "hungarianMinor", "persian", "octatonic", "hexatonic",
   "chromatic", "tritone"]

/-- The chord-name vocabulary the spec declares as the stable contract. -/
def claimedChordNames : List String :=
  ["maj", "min", "dim", "aug", "maj7", "min7", "7", "dim7", "m7b5",
   "maj9", "min9", "9", "maj6", "min6", "sus2", "sus4"]

/-- A list of `Option`s whose entries are all `some` maps to a `some`. -/
theorem mapM_option_of_isSome {α β : Type} (f : α → Option β) :
    ∀ l : List α, (∀ a ∈ l, (f a).isSome) → ∃ ys, l.mapM f = some ys := by
  intro l
  induction l with
  | nil => exact fun _ => ⟨[], rfl⟩
  | cons a as ih =>
    intro h
    obtain ⟨b, hb⟩ := Option.isSome_iff_exists.mp (h a (by simp))
    obtain ⟨ys, hys⟩ := ih (fun x hx => h x (by simp [hx]))
    refine ⟨b :: ys, ?_⟩
    rw [List.mapM_cons, hb, hys]
    rfl

/-- The resolver succeeds whenever the pattern name is in its table with
non-negative intervals and the root's midi number is non-negative. -/
theorem getScaleNotesWith_ok (table : List (String × List Int)) (root : Note)
    (hm : 0 ≤ root.getMidiNumber) (name : String) (ints : List Int)
    (hlook : lookupIntervals table name = some ints)
    (hpos : ∀ i ∈ ints, 0 ≤ i) :
    ∃ notes, getScaleNotesWith table root name = Except.ok notes := by
  obtain ⟨ns, hns⟩ := mapM_option_of_isSome (fun i => root.getHalfStepNote i) ints
    (fun i hi => by
      obtain ⟨m, hsome, -⟩ := getHalfStepNote_spec root i (by
        have := hpos i hi
        omega)
      simp [hsome])
  refine ⟨dedupNotes ns, ?_⟩
  unfold getScaleNotesWith
  rw [hlook]
  dsimp only
  rw [hns]

/-- C2 (amended): the claimed vocabulary is split between the two resolver
variants. The first variant accepts every claimed scale and chord name
except `diatonicMajor` and `diatonicMinor`; the second accepts exactly the
six diatonic/pentatonic/blues scale names and the first nine chord names.
On accepted names, for any root note of the declared field types whose midi
number is non-negative, no error is raised and a note list is returned.
Matching is exact and case-sensitive: the capitalised `Major` misses both
tables. -/
theorem getScaleNotes_vocabulary (root : Note) (hm : 0 ≤ root.getMidiNumber) :
    (∀ name ∈ claimedScaleNames ++ claimedChordNames,
      name ∉ (["diatonicMajor", "diatonicMinor"] : List String) →
      ∃ notes, getScaleNotesV1 root name = Except.ok notes) ∧
    (∀ name ∈ (["diatonicMajor", "diatonicMinor", "pentatonicMajor",
        "pentatonicMinor", "bluesMajor", "bluesMinor", "maj", "min", "dim",
        "aug", "maj7", "min7", "7", "dim7", "m7b5"] : List String),
      ∃ notes, getScaleNotesV2 root name = Except.ok notes) ∧
    lookupIntervals scaleIntervalsV1 "Major" = none ∧
    lookupIntervals scaleIntervalsV2 "Major" = none := by
  refine ⟨?_, ?_, by decide, by decide⟩
  · intro name hmem hnot
    fin_cases hmem <;>
      first
        | (exact absurd (by decide) hnot)
        | (exact getScaleNotesWith_ok scaleIntervalsV1 root hm _ _ rfl (by decide))
  · intro name hmem
    fin_cases hmem <;>
      exact getScaleNotesWith_ok scaleIntervalsV2 root hm _ _ rfl (by decide)

/-- C2 counterexample: no single resolver accepts the whole claimed
vocabulary: the first variant rejects the claimed scale name
`diatonicMajor` and the second rejects the claimed scale name `major`,
both with the unknown-pattern error. -/
theorem getScaleNotes_vocabulary_counterexample :
    getScaleNotesV1 ⟨0, 0, 4⟩ "diatonicMajor" =
        Except.error ScaleError.unknownPattern ∧
      getScaleNotesV2 ⟨0, 0, 4⟩ "major" =
        Except.error ScaleError.unknownPattern ∧
      "diatonicMajor" ∈ claimedScaleNames ∧ "major" ∈ claimedScaleNames :=
  ⟨rfl, rfl, by decide, by decide⟩

/-- C2 witness: the first variant resolves `major` from root C4. -/
theorem getScaleNotes_vocabulary_witness :
    ∃ notes, getScaleNotesV1 ⟨0, 0, 4⟩ "major" = Except.ok notes :=
  (getScaleNotes_vocabulary ⟨0, 0, 4⟩ (by decide)).1 "major" (by decide) (by decide)

/-- C8: the resolver raises the unknown-pattern error exactly when the name
misses the static table — no other validation produces it — and
`notAScale` from root C is such a miss. -/
theorem unknownPattern_only_validation :
    (∀ (root : Note) (name : String),
      getScaleNotesV1 root name = Except.error ScaleError.unknownPattern ↔
        lookupIntervals scaleIntervalsV1 name = none) ∧
    getScaleNotesV1 ⟨0, 0, 4⟩ "notAScale" =
      Except.error ScaleError.unknownPattern := by
  refine ⟨fun root name => ?_, rfl⟩
  unfold getScaleNotesV1 getScaleNotesWith
  cases hlook : lookupIntervals scaleIntervalsV1 name with
  | none => simp
  | some ints =>
    dsimp only
    cases hmap : ints.mapM (fun interval => root.getHalfStepNote interval) with
    | none => simp
    | some ns => simp

/-- C5: resolving `diatonicMajor` from root C4 through the second variant
yields exactly the seven notes named C, D, E, F, G, A, B, in order. -/
theorem diatonicMajor_from_C :
    Except.map (fun notes => notes.map (fun n => Note.getNoteName n.index false))
        (getScaleNotesV2 ⟨0, 0, 4⟩ "diatonicMajor") =
      Except.ok ["C", "D", "E", "F", "G", "A", "B"] := by
  rfl

/-! ## Fretboard.ts: stringTuningToNotes (the tuning parser) -/

/-- The two `throw new Error` sites of `stringTuningToNotes`: a token the
regex rejects (`Invalid note format`) and a normalized name the note map
lacks (`Unknown note`). -/
inductive ParseError where
  | invalidFormat
  | unknownNote
deriving DecidableEq, Repr

/-- The accidental characters of the token regex: `#`, `b`, `♯`, `♭`. -/
def accidentalChars : List Char := ['#', 'b', '♯', '♭']

/-- The regex `^([A-G](?:#|b|♯|♭)?)(\d+)$` as a total matcher on the
token's characters: on a match, the letter+accidental group and the octave
digits. -/
def tokenMatch (cs : List Char) : Option (List Char × List Char) :=
  match cs with
  | [] => none
  | c :: rest =>
    if 'A' ≤ c ∧ c ≤ 'G' then
      match rest with
      | [] => none
      | a :: ds =>
        if a ∈ accidentalChars then
          if ds ≠ [] ∧ ds.all Char.isDigit then some ([c, a], ds) else none
        else
          if rest ≠ [] ∧ rest.all Char.isDigit then some ([c], rest) else none
    else none

/-- `parseInt(octaveStr, 10)` on a non-empty digit string. -/
def digitsToNat (ds : List Char) : Nat :=
  ds.foldl (fun acc c => acc * 10 + (c.toNat - Char.toNat '0')) 0

/-- `String.prototype.replace(pattern, repl)` with a plain one-character
pattern: replace the first occurrence only. -/
def replaceFirstChar : List Char → Char → Char → List Char
  | [], _, _ => []
  | c :: rest, a, b => if c = a then b :: rest else c :: replaceFirstChar rest a b

/-- The `noteMap` table of `stringTuningToNotes`, all 27 keys in source
order (ASCII and Unicode accidental spellings): name to
(pitch class, accidental). -/
def noteMapTable : List (String × Int × Int) :=
  [("C", 0, 0), ("C#", 0, 1), ("C♯", 0, 1),
   ("Db", 2, -1), ("D♭", 2, -1), ("D", 2, 0), ("D#", 2, 1), ("D♯", 2, 1),
   ("Eb", 4, -1), ("E♭", 4, -1), ("E", 4, 0),
   ("F", 5, 0), ("F#", 5, 1), ("F♯", 5, 1),
   ("Gb", 7, -1), ("G♭", 7, -1), ("G", 7, 0), ("G#", 7, 1), ("G♯", 7, 1),
   ("Ab", 9, -1), ("A♭", 9, -1), ("A", 9, 0), ("A#", 9, 1), ("A♯", 9, 1),
   ("Bb", 11, -1), ("B♭", 11, -1), ("B", 11, 0)]

/-- Lookup in `noteMap`. -/
def lookupNoteMap (k : String) : Option (Int × Int) :=
  (noteMapTable.find? (fun p => p.1 == k)).map (fun p => p.2)

/-- One token of `stringTuningToNotes`: regex match, normalization of ASCII
accidentals to Unicode (`replace('#','♯').replace('b','♭')`), note-map
lookup, octave parse. -/
def parseOne (s : String) : Except ParseError (Int × Int × Nat) :=
  match tokenMatch s.data with
  | none => Except.error ParseError.invalidFormat
  | some (nameChars, digits) =>
    let name := String.mk (replaceFirstChar (replaceFirstChar nameChars '#' '♯') 'b' '♭')
    match lookupNoteMap name with
    | none => Except.error ParseError.unknownNote
    | some (pc, acc) => Except.ok (pc, acc, digitsToNat digits)

/-- `stringTuningToNotes(tuning)`: all tokens or the first error
(`tuning.map` with `throw` aborts the whole call). -/
def stringTuningToNotes (tuning : List String) :
    Except ParseError (List (Int × Int × Nat)) :=
  tuning.mapM parseOne

/-- The spec's token grammar, stated independently of the matcher:
`<LETTER>[accidental]<octave-digits>` with letter in A..G and accidental
one of `#`, `♯`, `b`, `♭` or absent. -/
def MatchesGrammar (s : String) : Prop :=
  ∃ (letter : Char) (acc : List Char) (digits : List Char),
    s.data = letter :: acc ++ digits ∧
    ('A' ≤ letter ∧ letter ≤ 'G') ∧
    (acc = [] ∨ ∃ a, acc = [a] ∧ a ∈ accidentalChars) ∧
    digits ≠ [] ∧ digits.all Char.isDigit

/-- A successful regex match exhibits the grammar's decomposition. -/
theorem tokenMatch_sound (s : String) (x : List Char × List Char)
    (h : tokenMatch s.data = some x) : MatchesGrammar s := by
  cases hcs : s.data with
  | nil =>
    rw [hcs] at h
    simp [tokenMatch] at h
  | cons c rest =>
    rw [hcs] at h
    unfold tokenMatch at h
    dsimp only at h
    by_cases hc : 'A' ≤ c ∧ c ≤ 'G'
    · rw [if_pos hc] at h
      cases rest with
      | nil => simp at h
      | cons a ds =>
        dsimp only at h
        by_cases ha : a ∈ accidentalChars
        · rw [if_pos ha] at h
          by_cases hd : ds ≠ [] ∧ ds.all Char.isDigit
          · exact ⟨c, [a], ds, by rw [hcs]; rfl, hc, Or.inr ⟨a, rfl, ha⟩, hd.1, hd.2⟩
          · rw [if_neg hd] at h; exact absurd h (by simp)
        · rw [if_neg ha] at h
          by_cases hd : (a :: ds) ≠ [] ∧ (a :: ds).all Char.isDigit
          · exact ⟨c, [], a :: ds, by rw [hcs]; rfl, hc, Or.inl rfl, hd.1, hd.2⟩
          · rw [if_neg hd] at h; exact absurd h (by simp)
    · rw [if_neg hc] at h; exact absurd h (by simp)

/-- A member of the list which the mapping sends to an error makes the
whole `mapM` an error (no partial success). -/
theorem mapM_except_error_mem {ε α β : Type} (f : α → Except ε β) :
    ∀ (l : List α) (t : α), t ∈ l → (∃ e, f t = Except.error e) →
      ∃ e2, l.mapM f = Except.error e2 := by
  intro l
  induction l with
  | nil => intro t ht _; simp at ht
  | cons hd tl ih =>
    intro t ht he
    cases hhd : f hd with
    | error e2 =>
      refine ⟨e2, ?_⟩
      rw [List.mapM_cons, hhd]
      rfl
    | ok v =>
      rcases List.mem_cons.mp ht with rfl | htl
      · obtain ⟨e, he⟩ := he
        rw [hhd] at he
        simp at he
      · obtain ⟨e3, he3⟩ := ih t htl he
        refine ⟨e3, ?_⟩
        rw [List.mapM_cons, hhd, he3]
        rfl

/-- C9: the tuning parser raises the format error on every token outside
the grammar (`["H4"]` concretely); it raises the unknown-note error when a
grammatical token's normalized name misses the 17 reachable names of the
note map (`["E♯4"]` concretely); and one bad token rejects the whole
tuning. -/
theorem parseTuning_validation :
    (stringTuningToNotes ["H4"] = Except.error ParseError.invalidFormat) ∧
    (stringTuningToNotes ["E♯4"] = Except.error ParseError.unknownNote) ∧
    (∀ s : String, ¬ MatchesGrammar s →
      parseOne s = Except.error ParseError.invalidFormat) ∧
    (∀ (tuning : List String) (t : String), t ∈ tuning →
      (∃ e, parseOne t = Except.error e) →
      ∃ e2, stringTuningToNotes tuning = Except.error e2) := by
  refine ⟨rfl, rfl, ?_, ?_⟩
  · intro s hng
    cases htok : tokenMatch s.data with
    | none =>
      unfold parseOne
      rw [htok]
    | some x => exact absurd (tokenMatch_sound s x htok) hng
  · exact fun tuning t ht he => mapM_except_error_mem parseOne tuning t ht he

/-! ## theory.ts: the theory analysis module -/

/-- `mode: 'major' | 'minor'`. -/
inductive Mode where
  | major
  | minor
deriving DecidableEq, Repr

/-- The `Key` interface: tonic, mode, key signature. -/
structure Key where
  tonic : String
  mode : Mode
  keySignature : List String
deriving DecidableEq, Repr

/-- The consonance classification of `INTERVAL_QUALITIES`. -/
inductive Consonance where
  | consonant
  | dissonant
  | neutral
deriving DecidableEq, Repr

/-- The `Interval` interface (`from`/`to` are keywords here, hence
`fromName`/`toName`). -/
structure Interval where
  fromName : String
  toName : String
  semitones : Int
  quality : String
  name : String
  consonance : Consonance
deriving DecidableEq, Repr

/-- `MAJOR_SCALE_INTERVALS`. -/
def MAJOR_SCALE_INTERVALS : List Int := [0, 2, 4, 5, 7, 9, 11]

/-- `MINOR_SCALE_INTERVALS`. -/
def MINOR_SCALE_INTERVALS : List Int := [0, 2, 3, 5, 7, 8, 10]

/-- `INTERVAL_QUALITIES`: semitone count 0..12 to long name and
consonance; any other key misses. -/
def INTERVAL_QUALITIES (semitones : Int) : Option (String × Consonance) :=
  if semitones = 0 then some ("Perfect Unison", Consonance.consonant)
  else if semitones = 1 then some ("Minor Second", Consonance.dissonant)
  else if semitones = 2 then some ("Major Second", Consonance.dissonant)
  else if semitones = 3 then some ("Minor Third", Consonance.consonant)
  else if semitones = 4 then some ("Major Third", Consonance.consonant)
  else if semitones = 5 then some ("Perfect Fourth", Consonance.neutral)
  else if semitones = 6 then some ("Tritone", Consonance.dissonant)
  else if semitones = 7 then some ("Perfect Fifth", Consonance.consonant)
  else if semitones = 8 then some ("Minor Sixth", Consonance.consonant)
  else if semitones = 9 then some ("Major Sixth", Consonance.consonant)
  else if semitones = 10 then some ("Minor Seventh", Consonance.dissonant)
  else if semitones = 11 then some ("Major Seventh", Consonance.dissonant)
  else if semitones = 12 then some ("Perfect Octave", Consonance.consonant)
  else none

/-- `KEY_SIGNATURES`, in source (insertion) order: all major keys, then the
minor keys whose names end in `m`. -/
def KEY_SIGNATURES : List (String × List String) :=
  [("C", []),
   ("G", ["F♯"]),
   ("D", ["F♯", "C♯"]),
   ("A", ["F♯", "C♯", "G♯"]),
   ("E", ["F♯", "C♯", "G♯", "D♯"]),
   ("B", ["F♯", "C♯", "G♯", "D♯", "A♯"]),
   ("F♯", ["F♯", "C♯", "G♯", "D♯", "A♯", "E♯"]),
   ("C♯", ["F♯", "C♯", "G♯", "D♯", "A♯", "E♯", "B♯"]),
   ("F", ["B♭"]),
   ("B♭", ["B♭", "E♭"]),
   ("E♭", ["B♭", "E♭", "A♭"]),
   ("A♭", ["B♭", "E♭", "A♭", "D♭"]),
   ("D♭", ["B♭", "E♭", "A♭", "D♭", "G♭"]),
   ("G♭", ["B♭", "E♭", "A♭", "D♭", "G♭", "C♭"]),
   ("C♭", ["B♭", "E♭", "A♭", "D♭", "G♭", "C♭", "F♭"]),
   ("Am", ["C", "F", "G"]),
   ("Em", ["F♯", "C♯"]),
   ("Bm", ["F♯", "C♯", "G♯"]),
   ("F♯m", ["F♯", "C♯", "G♯", "D♯"]),
   ("C♯m", ["F♯", "C♯", "G♯", "D♯", "A♯"]),
   ("G♯m", ["F♯", "C♯", "G♯", "D♯", "A♯", "E♯"]),
   ("D♯m", ["F♯", "C♯", "G♯", "D♯", "A♯", "E♯", "B♯"]),
   ("Dm", ["B♭", "E♭"]),
   ("Gm", ["B♭", "E♭", "A♭"]),
   ("Cm", ["B♭", "E♭", "A♭", "D♭"]),
   ("Fm", ["B♭", "E♭", "A♭", "D♭", "G♭"]),
   ("B♭m", ["B♭", "E♭", "A♭", "D♭", "G♭", "C♭"]),
   ("E♭m", ["B♭", "E♭", "A♭", "D♭", "G♭", "C♭", "F♭"])]

/-- `note.replace(/[0-9]/g, '')`: strip the decimal digits. -/
def stripDigits (s : String) : String :=
  String.mk (s.data.filter (fun c => ¬ c.isDigit))

/-- `generateScale(root, mode)`: root note from the pitch-class lookup with
`|| 0` fallback, natural accidental, octave 4; each interval transposed and
rendered in flat notation with digits stripped. The `none` branch is
unreachable: the root has octave 4 and every step is in 0..11. -/
def generateScale (root : String) (mode : Mode) : List String :=
  let intervals := match mode with
    | Mode.major => MAJOR_SCALE_INTERVALS
    | Mode.minor => MINOR_SCALE_INTERVALS
  let rootNote : Note := ⟨(pitchClassLookup root).getD 0, 0, 4⟩
  intervals.map (fun interval =>
    match rootNote.getHalfStepNote interval with
    | some note => stripDigits (note.toDisplayString true)
    | none => "")

/-- One step of building `noteCount`: increment an existing key in place or
append a new one (JavaScript object insertion order). -/
def bumpCount : List (String × Nat) → String → List (String × Nat)
  | [], s => [(s, 1)]
  | (k, v) :: rest, s =>
    if k = s then (k, v + 1) :: rest else (k, v) :: bumpCount rest s

/-- The `noteCount` record of `detectKey`: octave digits stripped, one
count per note name. -/
def buildCount (notes : List String) : List (String × Nat) :=
  notes.foldl (fun acc note => bumpCount acc (stripDigits note)) []

/-- `noteCount[s]` with the absent key read as 0 (JavaScript
`noteCount[s] || 0`; a present count is never 0). -/
def countOf (noteCount : List (String × Nat)) (s : String) : Nat :=
  ((noteCount.find? (fun p => p.1 == s)).map (fun p => p.2)).getD 0

/-- `calculateKeyScore(scale, noteCount)`: frequency-weighted share of
scale notes present, +0.2 if the tonic is present, +0.1 if the fifth
degree is present. The JavaScript `if (noteCount[x])` truthiness test is
the `≠ 0` guard. -/
def calculateKeyScore (scale : List String) (noteCount : List (String × Nat)) : ℚ :=
  let totalNotes : Nat := (noteCount.map (fun p => p.2)).sum
  let score : ℚ := scale.foldl (fun score scaleNote =>
    if countOf noteCount scaleNote ≠ 0 then
      score + (countOf noteCount scaleNote : ℚ) / (totalNotes : ℚ)
    else score) 0
  let score := if countOf noteCount (scale.getD 0 "") ≠ 0 then score + (0.2 : ℚ)
    else score
  let score := if countOf noteCount (scale.getD 4 "") ≠ 0 then score + (0.1 : ℚ)
    else score
  score

/-- `tonic.replace('m', '')`: drop the first letter m. -/
def removeFirstM : List Char → List Char
  | [] => []
  | c :: rest => if c = 'm' then rest else c :: removeFirstM rest

/-- `tonic.endsWith('m')` for the one-character suffix: the last character
is the letter m. -/
def endsWithM (s : String) : Bool :=
  match s.data.getLast? with
  | some c => c == 'm'
  | none => false

/-- The `possibleKeys` array of `detectKey`, in push order: every entry of
`KEY_SIGNATURES` with a signature of at most 7 accidentals as a major
candidate (the minor-named entries included, with their raw name as
tonic), then every entry whose name ends in `m` as a minor candidate with
the `m` stripped. Each candidate carries its score. -/
def possibleKeys (noteCount : List (String × Nat)) : List (Key × ℚ) :=
  (KEY_SIGNATURES.filterMap (fun entry =>
    if entry.2.length ≤ 7 then
      some (⟨entry.1, Mode.major, entry.2⟩,
        calculateKeyScore (generateScale entry.1 Mode.major) noteCount)
    else none)) ++
  (KEY_SIGNATURES.filterMap (fun entry =>
    if entry.2.length ≤ 7 ∧ endsWithM entry.1 then
      some (⟨String.mk (removeFirstM entry.1.data), Mode.minor, entry.2⟩,
        calculateKeyScore
          (generateScale (String.mk (removeFirstM entry.1.data)) Mode.minor)
          noteCount)
    else none))

/-- `detectKey(notes)`: empty input is undetected; otherwise the candidates
are sorted by score descending with the stable `Array.prototype.sort`
(comparator `(a, b) => b.score - a.score`), and the top candidate is
returned when its score exceeds 0.3. -/
def detectKey (notes : List String) : Option Key :=
  if notes = [] then none
  else
    let noteCount := buildCount notes
    let sorted := (possibleKeys noteCount).mergeSort
      (fun a b => decide (b.2 ≤ a.2))
    match sorted.head? with
    | some best => if best.2 > (0.3 : ℚ) then some best.1 else none
    | none => none

/-- The spec's description of key detection, stated independently of the
sort: the first candidate in enumeration order whose score is maximal
(highest score, ties broken by enumeration order) is returned when its
score exceeds the 0.3 threshold. -/
def detectKeySpec (notes : List String) : Option Key :=
  let noteCount := buildCount notes
  let candidates := possibleKeys noteCount
  match candidates.find? (fun c => candidates.all (fun d => decide (d.2 ≤ c.2))) with
  | some best => if best.2 > (0.3 : ℚ) then some best.1 else none
  | none => none

/-- `name.split(' ')[0]`: the characters before the first space. -/
def firstWord (s : String) : String :=
  String.mk (s.data.takeWhile (fun c => c != ' '))

/-- `calculateInterval(from, to)`: both notes via the pitch-class lookup
with `|| 0` fallback, semitone distance mod 12, quality from the fixed
table (the first word of the long name). -/
def calculateInterval (fromName toName : String) : Option Interval :=
  let fromNote : Note := ⟨(pitchClassLookup fromName).getD 0, 0, 4⟩
  let toNote : Note := ⟨(pitchClassLookup toName).getD 0, 0, 4⟩
  let semitones := (toNote.index - fromNote.index + 12).tmod 12
  match INTERVAL_QUALITIES semitones with
  | none => none
  | some q =>
    some ⟨fromName, toName, semitones, firstWord q.1, q.1, q.2⟩

/-- The ordered pairs (i, j), i < j, of the two nested loops of
`analyzeIntervals`, in loop order. -/
def allPairs {α : Type} : List α → List (α × α)
  | [] => []
  | x :: xs => xs.map (fun y => (x, y)) ++ allPairs xs

/-- `analyzeIntervals(notes)`: the interval of every pair, octave digits
stripped, null results skipped. -/
def analyzeIntervals (notes : List String) : List Interval :=
  (allPairs notes).filterMap (fun p =>
    calculateInterval (stripDigits p.1) (stripDigits p.2))

/-- `calculateHarmonicTension(notes)`: +1 per dissonant pair, -0.5 per
consonant pair, then `Math.max(0, Math.min(10, tension + 5))`. -/
def calculateHarmonicTension (notes : List String) : ℚ :=
  let intervals := analyzeIntervals notes
  let tension : ℚ := intervals.foldl (fun tension interval =>
    match interval.consonance with
    | Consonance.dissonant => tension + 1
    | Consonance.consonant => tension - 0.5
    | Consonance.neutral => tension) 0
  max 0 (min 10 (tension + 5))

/-- The candidate keys do not depend on the observed notes: only their
scores do. -/
theorem possibleKeys_map_fst (nc : List (String × Nat)) :
    (possibleKeys nc).map Prod.fst = (possibleKeys []).map Prod.fst := rfl

/-- No candidate (tonic, mode, signature) is enumerated twice. -/
theorem possibleKeys_nodup (nc : List (String × Nat)) :
    (possibleKeys nc).Nodup := by
  have h : ((possibleKeys nc).map Prod.fst).Nodup := by
    rw [possibleKeys_map_fst]
    decide
  exact h.of_map

/-- The head of the stable descending sort on a duplicate-free list is the
first element, in list order, whose score is maximal. -/
theorem head_mergeSort_eq_find_max {α : Type} (score : α → ℚ) (l : List α)
    (hnd : l.Nodup) :
    (l.mergeSort (fun a b => decide (score b ≤ score a))).head? =
      l.find? (fun c => l.all (fun d => decide (score d ≤ score c))) := by
  set le : α → α → Bool := fun a b => decide (score b ≤ score a) with hle
  have htrans : ∀ a b c : α, le a b = true → le b c = true → le a c = true := by
    intro a b c h1 h2
    simp only [hle, decide_eq_true_eq] at h1 h2 ⊢
    exact le_trans h2 h1
  have htotal : ∀ a b : α, (le a b || le b a) = true := by
    intro a b
    simp only [hle, Bool.or_eq_true, decide_eq_true_eq]
    exact le_total (score b) (score a)
  cases hms : l.mergeSort le with
  | nil =>
    have hp := List.mergeSort_perm l le
    rw [hms] at hp
    have hl : l = [] := hp.symm.eq_nil
    subst hl
    simp
  | cons m t =>
    have hp := List.mergeSort_perm l le
    rw [hms] at hp
    have hsorted := List.sorted_mergeSort htrans htotal l
    rw [hms] at hsorted
    have hmem : m ∈ l := hp.subset (List.mem_cons_self m t)
    have hmax : ∀ d ∈ l, score d ≤ score m := by
      intro d hd
      have hd2 : d ∈ m :: t := hp.mem_iff.mpr hd
      rcases List.mem_cons.mp hd2 with rfl | hdt
      · exact le_refl _
      · have h3 := List.rel_of_pairwise_cons hsorted hdt
        simp only [hle, decide_eq_true_eq] at h3
        exact h3
    have hpm : (l.all fun d => decide (score d ≤ score m)) = true := by
      simp only [List.all_eq_true, decide_eq_true_eq]
      exact hmax
    cases hfind : l.find? (fun c => l.all fun d => decide (score d ≤ score c)) with
    | none =>
      rw [List.find?_eq_none] at hfind
      exact absurd hpm (by simpa using hfind m hmem)
    | some f =>
      obtain ⟨hpf, as, bs, hsplit, hfirst⟩ := List.find?_eq_some.mp hfind
      by_cases heq : m = f
      · simp [heq]
      · exfalso
        have hmnotas : m ∉ as := by
          intro hin
          have h4 := hfirst m hin
          rw [hpm] at h4
          simp at h4
        have hmbs : m ∈ bs := by
          have h5 := hmem
          rw [hsplit] at h5
          rcases List.mem_append.mp h5 with h6 | h7
          · exact absurd h6 hmnotas
          · rcases List.mem_cons.mp h7 with h8 | h9
            · exact absurd h8 heq
            · exact h9
        have hsub : List.Sublist [f, m] l := by
          rw [hsplit]
          exact (List.Sublist.cons₂ f (List.singleton_sublist.mpr hmbs)).trans
            (List.sublist_append_right as (f :: bs))
        have hfm : le f m = true := by
          simp only [hle, decide_eq_true_eq]
          have h10 := hpf
          simp only [List.all_eq_true, decide_eq_true_eq] at h10
          exact h10 m hmem
        have hpair := List.pair_sublist_mergeSort htrans htotal hfm hsub
        rw [hms] at hpair
        have hnd2 : (m :: t).Nodup := (hp.nodup_iff).mpr hnd
        have hmnott : m ∉ t := (List.nodup_cons.mp hnd2).1
        cases hpair with
        | cons a h11 =>
          exact hmnott (h11.subset (by simp))
        | cons₂ a h12 =>
          exact heq rfl

/-- C3: on the seven natural note names `detectKey` finds C major, and in
general `detectKey` agrees with the specification-side selector
`detectKeySpec`: the first candidate in enumeration order with the maximal
score, subject to the 0.3 threshold, undetected otherwise. -/
theorem detectKey_c_major :
    detectKey ["C", "D", "E", "F", "G", "A", "B"] =
      some ⟨"C", Mode.major, []⟩ ∧
    ∀ notes, detectKey notes = detectKeySpec notes := by
  have hgen : ∀ notes, detectKey notes = detectKeySpec notes := by
    intro notes
    by_cases hne : notes = []
    · subst hne
      have h2 : detectKeySpec ([] : List String) = none := by
        with_unfolding_all decide
      rw [h2]
      rfl
    · simp only [detectKey, detectKeySpec, if_neg hne]
      rw [head_mergeSort_eq_find_max (fun p : Key × ℚ => p.2)
        (possibleKeys (buildCount notes)) (possibleKeys_nodup _)]
  refine ⟨?_, hgen⟩
  rw [hgen]
  with_unfolding_all decide

/-- C7: the harmonic tension of any non-empty note list lies in [0, 10]:
the raw pairwise sum offset by +5 is clamped into that range. -/
theorem harmonicTension_bounds (notes : List String) (_h : notes ≠ []) :
    0 ≤ calculateHarmonicTension notes ∧ calculateHarmonicTension notes ≤ 10 := by
  unfold calculateHarmonicTension
  constructor
  · exact le_max_left 0 _
  · exact max_le (by norm_num) (min_le_left 10 _)

/-- C7 witness: the C major triad. -/
theorem harmonicTension_bounds_witness :
    0 ≤ calculateHarmonicTension ["C", "E", "G"] ∧
      calculateHarmonicTension ["C", "E", "G"] ≤ 10 :=
  harmonicTension_bounds ["C", "E", "G"] (by decide)

/-- C10: a note name that is not one of the seven bare natural letters
misses the pitch-class table of the theory module and falls back to pitch
class 0 (C): two such names always yield the 0-semitone Perfect Unison
interval, and such a tonic generates the C scale of the requested mode. -/
theorem accidental_pitch_fallback :
    (∀ s1 s2 : String, pitchClassLookup s1 = none → pitchClassLookup s2 = none →
      calculateInterval s1 s2 =
        some ⟨s1, s2, 0, "Perfect", "Perfect Unison", Consonance.consonant⟩) ∧
    (∀ (s : String) (mode : Mode), pitchClassLookup s = none →
      generateScale s mode = generateScale "C" mode) := by
  constructor
  · intro s1 s2 h1 h2
    unfold calculateInterval
    rw [h1, h2]
    rfl
  · intro s mode h
    unfold generateScale
    rw [h]
    rfl

end FretForge
